import Mathlib

/-!
Verification of the status-classification core of the PnP Launchpad site
(`assets/app.js`).  JavaScript instants are modelled as integer counts of
local-time milliseconds (a fixed-offset clock, matching the spec's "local
time" reading); an Invalid Date (`NaN` time value) is modelled as `none` of
`Option Int`, with every `<`/`>` comparison against it false, as in JS.
`new Date(y, mo, d, ...)` calendar arithmetic (including out-of-range
month/day rollover) is modelled with the standard civil-from-days /
days-from-civil algorithms over the proleptic Gregorian calendar, which is
exactly ECMAScript's `MakeDay`.
-/

namespace Launchpad

/-- Milliseconds per day, as in `dayDiff`. -/
def msPerDay : Int := 86400000

/-- Milliseconds of the noon time-of-day used by `parseDate`. -/
def noonMs : Int := 43200000

/-- Days since 1970-01-01 of the civil date `(y, m, d)` with `m` in `1..12`;
`d` may lie outside the month, in which case it rolls over, exactly as
ECMAScript `MakeDay` does.  Standard days-from-civil algorithm. -/
def daysFromCivil (y m d : Int) : Int :=
  let y' := if m ≤ 2 then y - 1 else y
  let era := y' / 400
  let yoe := y' - era * 400
  let mp := if m > 2 then m - 3 else m + 9
  let doy := (153 * mp + 2) / 5 + d - 1
  let doe := yoe * 365 + yoe / 4 - yoe / 100 + doy
  era * 146097 + doe - 719468

/-- Civil calendar date: year, month `1..12`, day `1..31`. -/
structure Civil where
  y : Int
  m : Int
  d : Int
deriving DecidableEq, Repr

/-- Civil date of a count of days since 1970-01-01 (inverse of
`daysFromCivil` on in-range dates).  Standard civil-from-days algorithm. -/
def civilFromDays (z : Int) : Civil :=
  let z' := z + 719468
  let era := z' / 146097
  let doe := z' - era * 146097
  let yoe := (doe - doe / 1460 + doe / 36524 - doe / 146096) / 365
  let y := yoe + era * 400
  let doy := doe - (365 * yoe + yoe / 4 - yoe / 100)
  let mp := (5 * doy + 2) / 153
  let d := doy - (153 * mp + 2) / 5 + 1
  let m := if mp < 10 then mp + 3 else mp - 9
  { y := if m ≤ 2 then y + 1 else y, m := m, d := d }

/-- Local-time value of `new Date(y, mo, d, hh..)` with zero-based month
`mo` (any integer: ECMAScript rolls excess months into the year) and the
ECMAScript two-digit-year adjustment, plus a time-of-day in milliseconds. -/
def mkLocalMs (y mo d timeOfDayMs : Int) : Int :=
  let yAdj := if 0 ≤ y ∧ y ≤ 99 then y + 1900 else y
  let ym := yAdj + mo / 12
  let mn := mo % 12
  daysFromCivil ym (mn + 1) d * msPerDay + timeOfDayMs

/-- Model of `Date.prototype.getFullYear` (local time). -/
def getFullYear (t : Int) : Int := (civilFromDays (t / msPerDay)).y

/-- Model of `Date.prototype.getMonth` (local time, zero-based). -/
def getMonth (t : Int) : Int := (civilFromDays (t / msPerDay)).m - 1

/-- Model of `Date.prototype.getDate` (local time, day of month). -/
def getDate (t : Int) : Int := (civilFromDays (t / msPerDay)).d

/-- A value stored in a project's `launchDate`/`endDate` attribute.
`str s fb` is a JS string `s` together with the time value `fb` that the
host's general `new Date(s)` parse would produce for it (`none` = Invalid
Date); `fb` is only consulted when `s` does not match the ISO pattern.
`nonString t` is any non-string value, whose `new Date(value)` conversion
yields time `t` (`none` = Invalid Date, e.g. for `undefined`). -/
inductive DateField where
  | str (s : String) (fb : Option Int)
  | nonString (t : Option Int)
deriving DecidableEq, Repr

/-- Digit test for the ISO pattern, `\d` of the regex. -/
def isDigitChar (c : Char) : Bool := '0' ≤ c && c ≤ '9'

/-- Numeric value of a list of decimal digit characters (`Number` applied
to a digit string). -/
def digitsToNat (l : List Char) : Nat :=
  l.foldl (fun acc c => acc * 10 + (c.toNat - '0'.toNat)) 0

/-- Matching of the regex `^(\d{4})-(\d{2})-(\d{2})$` used by `parseDate`
and `hasIsoDate`, returning the three captured numbers on success. -/
def isoParts (s : String) : Option (Nat × Nat × Nat) :=
  match s.data with
  | [a, b, c, d, h1, e, f, h2, g, h] =>
    if h1 = '-' && h2 = '-' &&
        [a, b, c, d, e, f, g, h].all isDigitChar then
      some (digitsToNat [a, b, c, d], digitsToNat [e, f], digitsToNat [g, h])
    else none
  | _ => none

/-- Function `hasIsoDate(value)`: true iff the value is a string matching exactly
the 4-2-2 digit pattern. -/
def hasIsoDate : DateField → Bool
  | .str s _ => (isoParts s).isSome
  | .nonString _ => false

/-- Function `parseDate(value)`: an ISO-pattern string becomes a local date at noon
via the `new Date(y, mo-1, d, 12, 0, 0, 0)` constructor; anything else is
handed to general date parsing (the `fb`/`t` component of the field). -/
def parseDate : DateField → Option Int
  | .str s fb =>
    match isoParts s with
    | some (y, mo, d) => some (mkLocalMs (y : Int) ((mo : Int) - 1) (d : Int) noonMs)
    | none => fb
  | .nonString t => t

/-- Function `atDayStart`: set local time-of-day to 00:00:00.000 (time value of an
instant, floored to its local day). -/
def dayStartMs (t : Int) : Int := t / msPerDay * msPerDay

/-- Function `atDayEnd`: set local time-of-day to 23:59:59.999. -/
def dayEndMs (t : Int) : Int := dayStartMs t + (msPerDay - 1)

/-- Lifting of `atDayStart` to possibly-invalid dates (an Invalid Date stays
invalid under `setHours`). -/
def atDayStart (o : Option Int) : Option Int := o.map dayStartMs

/-- Lifting of `atDayEnd` to possibly-invalid dates. -/
def atDayEnd (o : Option Int) : Option Int := o.map dayEndMs

/-- JS relational comparison on possibly-invalid dates: any comparison
involving `NaN` is false. -/
def jsLtOpt (a b : Option Int) : Bool :=
  match a, b with
  | some x, some y => decide (x < y)
  | _, _ => false

/-- Function `dayDiff(from, to)`: `Math.ceil` of the millisecond difference over a
day.  Exact ceiling division (the double rounding in the source cannot
cross an integer for day counts of this magnitude). -/
def dayDiff (a b : Int) : Int := -(-(b - a) / msPerDay)

/-- Function `isSameLocalDay(a, b)`: local year, month and day all agree. -/
def isSameLocalDay (a b : Int) : Bool :=
  getFullYear a == getFullYear b
    && getMonth a == getMonth b
    && getDate a == getDate b

/-- The seven status labels `projectStatus` can return. -/
inductive Status where
  | preview
  | upcoming
  | live
  | promo
  | latePledge
  | preOrder
  | archived
deriving DecidableEq, Repr

/-- A project record, restricted to the attributes the classification core
reads.  Flag attributes are modelled by their JS truthiness (`Boolean(x)`);
URL attributes likewise (a present non-empty URL is `true`).  Free-text
fields absent in the data are the empty string (falsy), matching the
`String(x || '')` coercions in the source. -/
structure Project where
  isPreview : Bool := false
  isPromo : Bool := false
  isLatePledge : Bool := false
  hasLatePledge : Bool := false
  latePledgeUrl : Bool := false
  isPreOrder : Bool := false
  hasPreOrder : Bool := false
  preOrderUrl : Bool := false
  launchDate : DateField := .nonString none
  endDate : DateField := .nonString none
  designer : String := ""
  designers : Option (List String) := none
  publisher : String := ""
deriving DecidableEq, Repr

/-- Function `projectStatus(p, now)` from `assets/app.js` (the watchlist variant,
lines 395-411): preview / upcoming / late-pledge / pre-order / archived /
promo / live, first match wins.  `launch > now` is `jsLtOpt now launch`
and `end < now` is `jsLtOpt end now`, the JS comparisons on possibly
invalid dates. -/
def projectStatus (p : Project) (now : Int) : Status :=
  let isPrev := p.isPreview || (!hasIsoDate p.launchDate && !hasIsoDate p.endDate)
  if isPrev then .preview
  else
    let launch := atDayStart (parseDate p.launchDate)
    let endD := atDayEnd (parseDate p.endDate)
    let latePledgeAvail := p.isLatePledge || p.hasLatePledge || p.latePledgeUrl
    let preOrderAvail := p.isPreOrder || p.hasPreOrder || p.preOrderUrl
    if jsLtOpt (some now) launch then .upcoming
    else if jsLtOpt endD (some now) then
      if latePledgeAvail then .latePledge
      else if preOrderAvail then .preOrder
      else .archived
    else if p.isPromo then .promo
    else .live

/-- The decision procedure exactly as the specification words it — first
match wins: preview when the flag is set or neither date matches the
`YYYY-MM-DD` pattern; else upcoming when `atDayStart(parseDate(launchDate))
> now`; else, when `atDayEnd(parseDate(endDate)) < now`, late-pledge /
pre-order / archived by flag availability; otherwise promo or live. -/
def specStatusOrder (p : Project) (now : Int) : Status :=
  if p.isPreview || (!hasIsoDate p.launchDate && !hasIsoDate p.endDate) then
    Status.preview
  else if jsLtOpt (some now) (atDayStart (parseDate p.launchDate)) then
    Status.upcoming
  else if jsLtOpt (atDayEnd (parseDate p.endDate)) (some now) then
    if p.isLatePledge || p.hasLatePledge || p.latePledgeUrl then Status.latePledge
    else if p.isPreOrder || p.hasPreOrder || p.preOrderUrl then Status.preOrder
    else Status.archived
  else if p.isPromo then Status.promo
  else Status.live

/-- C1: for every project record and every instant, `projectStatus`
follows the first-match decision order of the specification: preview (flag
set, or neither date pattern-valid); else upcoming when the launch day
start is after `now`; else, when the end day end is before `now`,
late-pledge / pre-order / archived by flag availability; otherwise promo
when flagged, live when not. -/
theorem projectStatus_follows_decision_order (p : Project) (now : Int) :
    projectStatus p now = specStatusOrder p now := by
  rfl

/-- C3: classification is a total function into the seven-value codomain —
for every project record, however malformed its fields, and every instant,
`projectStatus` returns exactly one of the seven status labels, with no
error branch. -/
theorem projectStatus_total (p : Project) (now : Int) :
    projectStatus p now = Status.preview ∨
    projectStatus p now = Status.upcoming ∨
    projectStatus p now = Status.live ∨
    projectStatus p now = Status.promo ∨
    projectStatus p now = Status.latePledge ∨
    projectStatus p now = Status.preOrder ∨
    projectStatus p now = Status.archived := by
  cases h : projectStatus p now <;> simp

/-- A pattern-valid date field always parses to a valid date (the ISO
branch of `parseDate` cannot fail). -/
lemma parseDate_some_of_iso {v : DateField} (h : hasIsoDate v = true) :
    ∃ t, parseDate v = some t := by
  cases v with
  | str s fb =>
    simp only [hasIsoDate, Option.isSome_iff_exists] at h
    obtain ⟨⟨y, mo, d⟩, hp⟩ := h
    refine ⟨mkLocalMs (y : Int) ((mo : Int) - 1) (d : Int) noonMs, ?_⟩
    simp [parseDate, hp]
  | nonString t => simp [hasIsoDate] at h

/-- Closed form of `projectStatus` when the preview flag is off and both
dates parse: the comparisons become plain integer comparisons against the
launch day's start and the end day's end. -/
lemma projectStatus_valid_eq (p : Project) (now lt et : Int)
    (hprev : p.isPreview = false)
    (hl : hasIsoDate p.launchDate = true)
    (hlt : parseDate p.launchDate = some lt)
    (het : parseDate p.endDate = some et) :
    projectStatus p now =
      if now < dayStartMs lt then Status.upcoming
      else if dayEndMs et < now then
        if p.isLatePledge || p.hasLatePledge || p.latePledgeUrl then Status.latePledge
        else if p.isPreOrder || p.hasPreOrder || p.preOrderUrl then Status.preOrder
        else Status.archived
      else if p.isPromo then Status.promo
      else Status.live := by
  simp [projectStatus, hprev, hl, hlt, het, atDayStart, atDayEnd, jsLtOpt]

/-- C2: for a non-preview project with pattern-valid launch and end dates
whose launch day is not after its end day, `projectStatus` is `live` or
`promo` at every instant from 00:00:00.000 of the launch day through
23:59:59.999 of the end day, `upcoming` strictly before the day start, and
`archived`/`late-pledge`/`pre-order` from the first millisecond of the
following day on; in particular it is never `upcoming` at the launch day's
noon, still in the live window at the end day's last millisecond, and out
of it one millisecond later. -/
theorem projectStatus_live_window (p : Project) (now lt et : Int)
    (hprev : p.isPreview = false)
    (hl : hasIsoDate p.launchDate = true)
    (he : hasIsoDate p.endDate = true)
    (hlt : parseDate p.launchDate = some lt)
    (het : parseDate p.endDate = some et)
    (horder : dayStartMs lt ≤ dayStartMs et) :
    (dayStartMs lt ≤ now ∧ now ≤ dayEndMs et →
      projectStatus p now = Status.live ∨ projectStatus p now = Status.promo)
    ∧ (now < dayStartMs lt → projectStatus p now = Status.upcoming)
    ∧ (dayEndMs et < now →
      projectStatus p now = Status.archived ∨
        projectStatus p now = Status.latePledge ∨
        projectStatus p now = Status.preOrder)
    ∧ projectStatus p (dayStartMs lt + noonMs) ≠ Status.upcoming
    ∧ (projectStatus p (dayEndMs et) = Status.live ∨
        projectStatus p (dayEndMs et) = Status.promo)
    ∧ (projectStatus p (dayEndMs et + 1) = Status.archived ∨
        projectStatus p (dayEndMs et + 1) = Status.latePledge ∨
        projectStatus p (dayEndMs et + 1) = Status.preOrder) := by
  have hq := fun n => projectStatus_valid_eq p n lt et hprev hl hlt het
  simp only [dayEndMs, msPerDay, noonMs] at *
  refine ⟨?_, ?_, ?_, ?_, ?_, ?_⟩
  · rintro ⟨h1, h2⟩
    rw [hq now]
    split_ifs <;> first | omega | (cases hp : p.isPromo <;> simp)
  · intro h1
    rw [hq now]
    split_ifs <;> first | rfl | omega
  · intro h1
    rw [hq now]
    split_ifs <;> simp <;> omega
  · rw [hq _]
    split_ifs <;> first | omega | simp
  · rw [hq _]
    split_ifs <;> first | omega | (cases hp : p.isPromo <;> simp)
  · rw [hq _]
    split_ifs <;> first | omega | simp

/-- Project used in the specification's worked scenario: launch 2025-03-10,
end 2025-03-17, no flags. -/
def sampleLive : Project :=
  { launchDate := DateField.str "2025-03-10" none,
    endDate := DateField.str "2025-03-17" none }

/-- Witness for C2 at the scenario project: at the end day's last local
millisecond the status is still in the live window. -/
theorem projectStatus_live_window_witness :
    projectStatus sampleLive (dayEndMs (mkLocalMs 2025 2 17 noonMs)) = Status.live ∨
    projectStatus sampleLive (dayEndMs (mkLocalMs 2025 2 17 noonMs)) = Status.promo :=
  (projectStatus_live_window sampleLive 0
    (mkLocalMs 2025 2 10 noonMs) (mkLocalMs 2025 2 17 noonMs)
    rfl (by decide) (by decide) (by decide) (by decide) (by decide)).2.2.2.2.1

/-- Function `projectIsJustLaunched(p, now)`: live/promo status, pattern-valid
launch date, and the launch day (normalized to day start, as in the
source) shares `now`'s local calendar day.  The `none` branch models the
always-false `NaN` component comparisons of an Invalid Date and is
unreachable under the `hasIsoDate` guard. -/
def projectIsJustLaunched (p : Project) (now : Int) : Bool :=
  let status := projectStatus p now
  if !(status == Status.live || status == Status.promo) then false
  else if !hasIsoDate p.launchDate then false
  else
    match atDayStart (parseDate p.launchDate) with
    | some t => isSameLocalDay t now
    | none => false

/-- Normalizing an instant to its day start does not change the local day
index. -/
lemma dayStartMs_ediv (t : Int) : dayStartMs t / msPerDay = t / msPerDay := by
  unfold dayStartMs
  exact Int.mul_ediv_cancel _ (by decide)

/-- Normalizing the first argument to its day start does not change
same-local-day comparison. -/
lemma isSameLocalDay_dayStart (t b : Int) :
    isSameLocalDay (dayStartMs t) b = isSameLocalDay t b := by
  unfold isSameLocalDay getFullYear getMonth getDate
  rw [dayStartMs_ediv]

/-- The local time 2025-03-10 08:00 of the specification's scenario. -/
def scenarioNow : Int := dayStartMs (mkLocalMs 2025 2 10 noonMs) + 8 * 3600000

/-- C6: `projectIsJustLaunched` is true exactly when the classified status
is `live` or `promo`, the launch date matches the ISO pattern, and the
parsed launch day has the same local year, month and day as `now`; and in
the scenario (launch 2025-03-10, end 2025-03-17, `now` = 2025-03-10 08:00
local) the status is `live` and just-launched holds. -/
theorem projectIsJustLaunched_iff :
    (∀ (p : Project) (now : Int),
      projectIsJustLaunched p now = true ↔
        (projectStatus p now = Status.live ∨ projectStatus p now = Status.promo)
          ∧ hasIsoDate p.launchDate = true
          ∧ ∃ t, parseDate p.launchDate = some t ∧ isSameLocalDay t now = true)
    ∧ projectStatus sampleLive scenarioNow = Status.live
    ∧ projectIsJustLaunched sampleLive scenarioNow = true := by
  refine ⟨fun p now => ?_, by decide, by decide⟩
  simp only [projectIsJustLaunched]
  by_cases hs : projectStatus p now = Status.live ∨ projectStatus p now = Status.promo
  · have hb : (projectStatus p now == Status.live
        || projectStatus p now == Status.promo) = true := by
      rcases hs with h | h <;> simp [h]
    by_cases hiso : hasIsoDate p.launchDate = true
    · obtain ⟨t, ht⟩ := parseDate_some_of_iso hiso
      simp [hb, hiso, ht, atDayStart, isSameLocalDay_dayStart, hs]
    · have hiso' : hasIsoDate p.launchDate = false := by
        simpa using hiso
      simp [hb, hiso']
  · have hb : (projectStatus p now == Status.live
        || projectStatus p now == Status.promo) = false := by
      cases h : projectStatus p now <;> simp_all
    simp [hb]
    intro h
    exact absurd h hs

/-- Function `countdownChip(status, p, now)`, producing the chip markup strings of
the source.  The `none` match arms are unreachable (each is guarded by
`hasIsoDate`, under which `parseDate` always succeeds). -/
def countdownChip (status : Status) (p : Project) (now : Int) : String :=
  if status == Status.preview then
    "<span class=\"countdown-chip preview\">Dates TBA</span>"
  else if status == Status.upcoming && hasIsoDate p.launchDate then
    match parseDate p.launchDate with
    | some t =>
      let days := dayDiff now t
      if days ≤ 0 then "<span class=\"countdown-chip upcoming\">Launching soon</span>"
      else "<span class=\"countdown-chip upcoming\">Launches in " ++ toString days ++ "d</span>"
    | none => ""
  else if (status == Status.live || status == Status.promo
      || status == Status.latePledge || status == Status.preOrder)
      && hasIsoDate p.endDate then
    match parseDate p.endDate with
    | some t =>
      let days := dayDiff now t
      if days < 0 then "<span class=\"countdown-chip ended\">Ended</span>"
      else if days == 0 then "<span class=\"countdown-chip live\">Ends today</span>"
      else "<span class=\"countdown-chip live\">Ends in " ++ toString days ++ "d</span>"
    | none => ""
  else ""

/-- C7: the countdown chip is the fixed dates-unknown message for
`preview`; for `upcoming` with a pattern-valid launch date it is the
launching-soon message when `dayDiff` is zero or negative and otherwise
the launches-in-N-days message; for the four live-window statuses with a
pattern-valid end date it is the ended / ends-today / ends-in-N-days
message as `dayDiff` is negative, zero or positive; and the empty string
for every other combination. -/
theorem countdownChip_spec (status : Status) (p : Project) (now : Int) :
    (status = Status.preview →
      countdownChip status p now =
        "<span class=\"countdown-chip preview\">Dates TBA</span>")
    ∧ (status = Status.upcoming → hasIsoDate p.launchDate = true →
      ∀ t, parseDate p.launchDate = some t →
        (dayDiff now t ≤ 0 →
          countdownChip status p now =
            "<span class=\"countdown-chip upcoming\">Launching soon</span>")
        ∧ (0 < dayDiff now t →
          countdownChip status p now =
            "<span class=\"countdown-chip upcoming\">Launches in "
              ++ toString (dayDiff now t) ++ "d</span>"))
    ∧ ((status = Status.live ∨ status = Status.promo ∨
        status = Status.latePledge ∨ status = Status.preOrder) →
      hasIsoDate p.endDate = true →
      ∀ t, parseDate p.endDate = some t →
        (dayDiff now t < 0 →
          countdownChip status p now =
            "<span class=\"countdown-chip ended\">Ended</span>")
        ∧ (dayDiff now t = 0 →
          countdownChip status p now =
            "<span class=\"countdown-chip live\">Ends today</span>")
        ∧ (0 < dayDiff now t →
          countdownChip status p now =
            "<span class=\"countdown-chip live\">Ends in "
              ++ toString (dayDiff now t) ++ "d</span>"))
    ∧ (status ≠ Status.preview →
      ¬(status = Status.upcoming ∧ hasIsoDate p.launchDate = true) →
      ¬((status = Status.live ∨ status = Status.promo ∨
          status = Status.latePledge ∨ status = Status.preOrder) ∧
        hasIsoDate p.endDate = true) →
      countdownChip status p now = "") := by
  refine ⟨?_, ?_, ?_, ?_⟩
  · rintro rfl
    simp [countdownChip]
  · rintro rfl hiso t ht
    constructor <;> intro hd <;>
      simp [countdownChip, hiso, ht] <;> omega
  · rintro hs hiso t ht
    have he : countdownChip status p now =
        (if dayDiff now t < 0 then "<span class=\"countdown-chip ended\">Ended</span>"
          else if dayDiff now t = 0 then "<span class=\"countdown-chip live\">Ends today</span>"
          else "<span class=\"countdown-chip live\">Ends in "
            ++ toString (dayDiff now t) ++ "d</span>") := by
      rcases hs with rfl | rfl | rfl | rfl <;> simp [countdownChip, hiso, ht]
    rw [he]
    refine ⟨fun hd => ?_, fun hd => ?_, fun hd => ?_⟩ <;>
      split_ifs <;> first | rfl | omega
  · intro h1 h2 h3
    cases hiso1 : hasIsoDate p.launchDate <;>
      cases hiso2 : hasIsoDate p.endDate <;>
        cases status <;> simp_all [countdownChip]

/-- Witness for C7: the fixed dates-unknown chip at a concrete preview
status, and a concrete ends-today chip via the live branch. -/
theorem countdownChip_spec_witness :
    countdownChip Status.preview {} 0 =
      "<span class=\"countdown-chip preview\">Dates TBA</span>" ∧
    countdownChip Status.live sampleLive (mkLocalMs 2025 2 17 noonMs) =
      "<span class=\"countdown-chip live\">Ends today</span>" :=
  ⟨(countdownChip_spec Status.preview {} 0).1 rfl,
    ((countdownChip_spec Status.live sampleLive (mkLocalMs 2025 2 17 noonMs)).2.2.1
      (Or.inl rfl) (by decide) (mkLocalMs 2025 2 17 noonMs) (by decide)).2.1 (by decide)⟩

/-- Comparator `byEndAsc(a, b)`: records without a pattern-valid end date compare
after records with one, two invalid records compare equal, and two valid
records compare by their parsed time values.  In the final branch both
dates are pattern-valid, so `parseDate` is `some`; the catch-all arm is
unreachable. -/
def byEndAsc (a b : Project) : Int :=
  if !hasIsoDate a.endDate && !hasIsoDate b.endDate then 0
  else if !hasIsoDate a.endDate then 1
  else if !hasIsoDate b.endDate then -1
  else
    match parseDate a.endDate, parseDate b.endDate with
    | some x, some y => x - y
    | _, _ => 0

/-- C4: `byEndAsc` returns a positive value when only the left record
lacks a pattern-valid end date, a negative value when only the right one
does, zero when both do, and the difference of the parsed timestamps when
both are valid; consequently any list that is pairwise ordered by the
comparator has no invalid-dated entry before a valid-dated one and lists
its valid entries in ascending end-date order. -/
theorem byEndAsc_spec :
    (∀ a b : Project,
      (hasIsoDate a.endDate = false → hasIsoDate b.endDate = true →
        byEndAsc a b = 1)
      ∧ (hasIsoDate a.endDate = true → hasIsoDate b.endDate = false →
        byEndAsc a b = -1)
      ∧ (hasIsoDate a.endDate = false → hasIsoDate b.endDate = false →
        byEndAsc a b = 0)
      ∧ (∀ ta tb, parseDate a.endDate = some ta → parseDate b.endDate = some tb →
          hasIsoDate a.endDate = true → hasIsoDate b.endDate = true →
          byEndAsc a b = ta - tb))
    ∧ (∀ s : List Project, s.Pairwise (fun a b => byEndAsc a b ≤ 0) →
        s.Pairwise (fun a b =>
          (hasIsoDate a.endDate = false → hasIsoDate b.endDate = false)
          ∧ ∀ ta tb, hasIsoDate a.endDate = true → hasIsoDate b.endDate = true →
              parseDate a.endDate = some ta → parseDate b.endDate = some tb →
              ta ≤ tb)) := by
  have key : ∀ a b : Project,
      (hasIsoDate a.endDate = false → hasIsoDate b.endDate = true →
        byEndAsc a b = 1)
      ∧ (hasIsoDate a.endDate = true → hasIsoDate b.endDate = false →
        byEndAsc a b = -1)
      ∧ (hasIsoDate a.endDate = false → hasIsoDate b.endDate = false →
        byEndAsc a b = 0)
      ∧ (∀ ta tb, parseDate a.endDate = some ta → parseDate b.endDate = some tb →
          hasIsoDate a.endDate = true → hasIsoDate b.endDate = true →
          byEndAsc a b = ta - tb) := by
    intro a b
    refine ⟨fun h1 h2 => ?_, fun h1 h2 => ?_, fun h1 h2 => ?_,
      fun ta tb hta htb h1 h2 => ?_⟩ <;>
      simp [byEndAsc, h1, h2]
    simp [hta, htb]
  refine ⟨key, fun s hs => ?_⟩
  refine hs.imp (fun {a b} h => ?_)
  refine ⟨fun h1 => ?_, fun ta tb ha hb hta htb => ?_⟩
  · cases h2 : hasIsoDate b.endDate
    · rfl
    · have := (key a b).1 h1 h2
      omega
  · have := (key a b).2.2.2 ta tb hta htb ha hb
    omega

/-- Witness for C4: a record with no end date compares after the scenario
project, and the two, listed valid-first, are pairwise ordered as the
claim requires. -/
theorem byEndAsc_spec_witness :
    byEndAsc {} sampleLive = 1 ∧
    ([sampleLive, {}] : List Project).Pairwise (fun a b =>
      (hasIsoDate a.endDate = false → hasIsoDate b.endDate = false)
      ∧ ∀ ta tb, hasIsoDate a.endDate = true → hasIsoDate b.endDate = true →
          parseDate a.endDate = some ta → parseDate b.endDate = some tb →
          ta ≤ tb) :=
  ⟨(byEndAsc_spec.1 {} sampleLive).1 rfl rfl,
    byEndAsc_spec.2 [sampleLive, {}]
      (by simp [List.pairwise_cons]; decide)⟩

/-- The rank local function of `byArchivePriority`: late-pledge 0,
pre-order 1, anything else 2 (computed from the classified status at the
comparison instant). -/
def archiveRank (now : Int) (p : Project) : Int :=
  match projectStatus p now with
  | Status.latePledge => 0
  | Status.preOrder => 1
  | _ => 2

/-- JS subtraction of two `getTime()` values where either side may be the
`NaN` of an Invalid Date (`none`). -/
def jsSub : Option Int → Option Int → Option Int
  | some x, some y => some (x - y)
  | _, _ => none

/-- Comparator `byArchivePriority(a, b)` with the ambient `new Date()` made an
explicit `now` parameter: rank difference first, then end date descending
(`parseDate(b).getTime() - parseDate(a).getTime()`, `none` = NaN). -/
def byArchivePriority (now : Int) (a b : Project) : Option Int :=
  let rankDiff := archiveRank now a - archiveRank now b
  if rankDiff ≠ 0 then some rankDiff
  else jsSub (parseDate b.endDate) (parseDate a.endDate)

/-- C5: the comparator's primary key is the status rank — late-pledge 0,
pre-order 1, every other status 2 — so a lower-ranked project compares
before any higher-ranked one regardless of end dates, and two projects of
equal rank compare by end date descending (most recently ended first). -/
theorem byArchivePriority_spec (now : Int) (a b : Project) :
    (projectStatus a now = Status.latePledge → archiveRank now a = 0)
    ∧ (projectStatus a now = Status.preOrder → archiveRank now a = 1)
    ∧ (projectStatus a now ≠ Status.latePledge →
        projectStatus a now ≠ Status.preOrder → archiveRank now a = 2)
    ∧ (archiveRank now a < archiveRank now b →
        byArchivePriority now a b = some (archiveRank now a - archiveRank now b)
          ∧ archiveRank now a - archiveRank now b < 0)
    ∧ (archiveRank now b < archiveRank now a →
        byArchivePriority now a b = some (archiveRank now a - archiveRank now b)
          ∧ 0 < archiveRank now a - archiveRank now b)
    ∧ (archiveRank now a = archiveRank now b →
        ∀ ta tb, parseDate a.endDate = some ta → parseDate b.endDate = some tb →
          byArchivePriority now a b = some (tb - ta)) := by
  refine ⟨fun h => ?_, fun h => ?_, fun h1 h2 => ?_, fun h => ?_, fun h => ?_,
    fun h ta tb hta htb => ?_⟩
  · simp [archiveRank, h]
  · simp [archiveRank, h]
  · cases hs : projectStatus a now <;> simp_all [archiveRank]
  · exact ⟨by simp [byArchivePriority]; omega, by omega⟩
  · exact ⟨by simp [byArchivePriority]; omega, by omega⟩
  · simp [byArchivePriority, h, hta, htb, jsSub]

/-- A late-pledge project of the archive page: ended 2025-03-01, late
pledge flagged. -/
def sampleLate : Project :=
  { launchDate := DateField.str "2025-02-01" none,
    endDate := DateField.str "2025-03-01" none,
    isLatePledge := true }

/-- A pre-order project of the archive page: ended 2025-04-01 (more
recently than `sampleLate`), pre-order flagged. -/
def samplePre : Project :=
  { launchDate := DateField.str "2025-03-05" none,
    endDate := DateField.str "2025-04-01" none,
    isPreOrder := true }

/-- Witness for C5: at 2025-06-01 noon the late-pledge project compares
before the pre-order project although it ended earlier. -/
theorem byArchivePriority_spec_witness :
    byArchivePriority (mkLocalMs 2025 5 1 noonMs) sampleLate samplePre =
      some (archiveRank (mkLocalMs 2025 5 1 noonMs) sampleLate -
        archiveRank (mkLocalMs 2025 5 1 noonMs) samplePre)
    ∧ archiveRank (mkLocalMs 2025 5 1 noonMs) sampleLate -
        archiveRank (mkLocalMs 2025 5 1 noonMs) samplePre < 0 :=
  (byArchivePriority_spec (mkLocalMs 2025 5 1 noonMs) sampleLate samplePre).2.2.2.1
    (by decide)

/-- JS whitespace test used by `String.prototype.trim` (the ASCII space
class plus the common Unicode members; the exact extended set is
irrelevant to the claims). -/
def isJsWhite (c : Char) : Bool :=
  c = ' ' || c = '\t' || c = '\n' || c = '\r' ||
    c.toNat = 11 || c.toNat = 12 || c.toNat = 0xA0 ||
    c.toNat = 0x2028 || c.toNat = 0x2029 || c.toNat = 0xFEFF

/-- Character-list core of `String.prototype.trim`: drop leading and
trailing whitespace. -/
def trimChars (l : List Char) : List Char :=
  ((l.dropWhile isJsWhite).reverse.dropWhile isJsWhite).reverse

/-- Model of `String.prototype.trim`. -/
def jsTrim (s : String) : String := String.mk (trimChars s.data)

/-- Model of `String.prototype.toLowerCase` restricted to the Basic Latin and
Latin-1 ranges (ASCII letters and the accented letters U+00C0-U+00DE,
excluding the multiplication sign), which covers the registry names the
site handles. -/
def jsToLower (c : Char) : Char :=
  if 'A' ≤ c ∧ c ≤ 'Z' then Char.ofNat (c.toNat + 32)
  else if 0xC0 ≤ c.toNat ∧ c.toNat ≤ 0xDE ∧ c.toNat ≠ 0xD7 then
    Char.ofNat (c.toNat + 32)
  else c

/-- Lowercasing lifted to strings. -/
def jsToLowerStr (s : String) : String := String.mk (s.data.map jsToLower)

/-- Unicode NFKD decomposition of one (already lowercased) character,
modelled on the Latin-1 accented letters: each splits into its base letter
followed by a combining mark; everything else is left alone. -/
def nfkdChar (c : Char) : List Char :=
  match c with
  | 'à' => ['a', '̀']
  | 'á' => ['a', '́']
  | 'â' => ['a', '̂']
  | 'ã' => ['a', '̃']
  | 'ä' => ['a', '̈']
  | 'å' => ['a', '̊']
  | 'ç' => ['c', '̧']
  | 'è' => ['e', '̀']
  | 'é' => ['e', '́']
  | 'ê' => ['e', '̂']
  | 'ë' => ['e', '̈']
  | 'ì' => ['i', '̀']
  | 'í' => ['i', '́']
  | 'î' => ['i', '̂']
  | 'ï' => ['i', '̈']
  | 'ñ' => ['n', '̃']
  | 'ò' => ['o', '̀']
  | 'ó' => ['o', '́']
  | 'ô' => ['o', '̂']
  | 'õ' => ['o', '̃']
  | 'ö' => ['o', '̈']
  | 'ù' => ['u', '̀']
  | 'ú' => ['u', '́']
  | 'û' => ['u', '̂']
  | 'ü' => ['u', '̈']
  | 'ý' => ['y', '́']
  | 'ÿ' => ['y', '̈']
  | _ => [c]

/-- The combining-diacritics block `[̀-ͯ]` stripped by
`slugify`. -/
def isCombining (c : Char) : Bool := 0x300 ≤ c.toNat && c.toNat ≤ 0x36F

/-- Characters kept by the `[^a-z0-9]+` replacement. -/
def isSlugChar (c : Char) : Bool :=
  ('a' ≤ c && c ≤ 'z') || ('0' ≤ c && c ≤ '9')

/-- Replacement of every maximal run of non-slug characters by a single
hyphen (the `replace(/[^a-z0-9]+/g, '-')` step); the boolean records
whether we are inside such a run. -/
def collapseRuns : Bool → List Char → List Char
  | _, [] => []
  | inRun, c :: rest =>
    if isSlugChar c then c :: collapseRuns false rest
    else if inRun then collapseRuns true rest
    else '-' :: collapseRuns true rest

/-- The `replace(/^-+|-+$/g, '')` step: strip leading and trailing
hyphen runs. -/
def trimHyphens (l : List Char) : List Char :=
  ((l.dropWhile (fun c => c = '-')).reverse.dropWhile (fun c => c = '-')).reverse

/-- Function `slugify(value)`: lowercase, NFKD-decompose, strip combining marks,
collapse non-alphanumeric runs to single hyphens, trim hyphens at the
ends. -/
def slugify (value : String) : String :=
  let lowered := jsToLowerStr value
  let decomposed := lowered.data.flatMap nfkdChar
  let stripped := decomposed.filter (fun c => !isCombining c)
  String.mk (trimHyphens (collapseRuns false stripped))

/-- A person registry entry (designer or publisher); a missing name or
slug in the JSON is the empty string (falsy). -/
structure Person where
  name : String := ""
  slug : String := ""
deriving DecidableEq, Repr

/-- Lookup in the `new Map(list.map(d => [String(d.name || '')
.toLowerCase(), d]))` registry: on duplicate keys the last entry wins, so
the map lookup returns the last matching element. -/
def lookupByName (people : List Person) (key : String) : Option Person :=
  people.reverse.find? (fun d => jsToLowerStr d.name == key)

/-- JS `||` on strings: the left operand unless it is falsy (empty). -/
def orStr (a b : String) : String := if a ≠ "" then a else b

/-- The `match?.slug || fallback` pattern. -/
def slugOr (m : Option Person) (fallback : String) : String :=
  match m with
  | some d => orStr d.slug fallback
  | none => fallback

/-- A resolved `{ name, slug }` designer pair. -/
structure DesignerItem where
  name : String
  slug : String
deriving DecidableEq, Repr

/-- Splitting on a comma separator (`String.prototype.split(',')`),
accumulator-style so it evaluates by structural recursion. -/
def splitCommaAux (acc : List Char) : List Char → List (List Char)
  | [] => [acc.reverse]
  | c :: rest =>
    if c = ',' then acc.reverse :: splitCommaAux [] rest
    else splitCommaAux (c :: acc) rest

/-- Model of `String.prototype.split(',')`. -/
def splitComma (s : String) : List String :=
  (splitCommaAux [] s.data).map String.mk

/-- The designer-name list of a project: the `designers` array when
present (stringified, trimmed, blanks dropped), else the legacy `designer`
string split on commas (trimmed, blanks dropped). -/
def designerNamesOf (project : Project) : List String :=
  match project.designers with
  | some l => (l.map jsTrim).filter (fun n => n ≠ "")
  | none => ((splitComma project.designer).map jsTrim).filter (fun n => n ≠ "")

/-- The content snapshot handed to `enrichProjects`; missing `designers`
or `publishers` lists are empty (the `|| []` defaults). -/
structure ContentData where
  projects : List Project := []
  designers : List Person := []
  publishers : List Person := []

/-- The enriched record `{...project, designer, designerItems,
designerSlugs, designerSlug, publisherSlug}`. -/
structure Enriched where
  base : Project
  designer : String
  designerItems : List DesignerItem
  designerSlugs : List String
  designerSlug : String
  publisherSlug : String
deriving DecidableEq, Repr

/-- The designer-item callback of `enrichProjects`: a name paired with its
registry slug when the case-insensitive lookup matches, else the derived
slug. -/
def mkDesignerItem (designers : List Person) (name : String) : DesignerItem :=
  { name := name,
    slug := slugOr (lookupByName designers (jsToLowerStr name)) (slugify name) }

/-- Enrichment of a single project against the two registries (the body of
the `data.projects.map` callback in `enrichProjects`). -/
def enrichProject (designers publishers : List Person) (project : Project) :
    Enriched :=
  let designerNames := designerNamesOf project
  let designerItems : List DesignerItem :=
    designerNames.map (mkDesignerItem designers)
  let d := if project.designer ≠ "" then
      lookupByName designers (jsToLowerStr project.designer)
    else none
  let pb := if project.publisher ≠ "" then
      lookupByName publishers (jsToLowerStr project.publisher)
    else none
  { base := project
    designer := orStr project.designer (String.intercalate ", " designerNames)
    designerItems := designerItems
    designerSlugs := designerItems.map (fun item => item.slug)
    designerSlug := orStr
      (match designerItems.head? with
        | some item => item.slug
        | none => "")
      (orStr
        (match d with
          | some m => m.slug
          | none => "")
        (if project.designer ≠ "" then slugify project.designer else ""))
    publisherSlug := slugOr pb
      (if project.publisher ≠ "" then slugify project.publisher else "") }

/-- Function `enrichProjects(data)`. -/
def enrichProjects (data : ContentData) : List Enriched :=
  data.projects.map (enrichProject data.designers data.publishers)

/-- C8: enrichment resolves designer and publisher names case-insensitively
against the registries; every resolved name keeps the registry slug
verbatim (a registry match with a slug), every unresolved name gets the
derived slug; the item list preserves the input names in order; and on the
specification's examples, "Ada Lovelace" derives `ada-lovelace` with no
registry match while a registry entry with slug `ada-l` wins over the
derived form. -/
theorem enrichProjects_spec :
    (∀ data : ContentData,
      enrichProjects data =
        data.projects.map (enrichProject data.designers data.publishers))
    ∧ (∀ designers publishers project,
      (enrichProject designers publishers project).designerItems.map
          (fun item => item.name) = designerNamesOf project)
    ∧ (∀ designers publishers project item,
      item ∈ (enrichProject designers publishers project).designerItems →
      (∀ m, lookupByName designers (jsToLowerStr item.name) = some m →
        m.slug ≠ "" → item.slug = m.slug)
      ∧ (lookupByName designers (jsToLowerStr item.name) = none →
        item.slug = slugify item.name))
    ∧ (∀ designers publishers project,
      project.publisher ≠ "" →
      (∀ m, lookupByName publishers (jsToLowerStr project.publisher) = some m →
        m.slug ≠ "" →
        (enrichProject designers publishers project).publisherSlug = m.slug)
      ∧ (lookupByName publishers (jsToLowerStr project.publisher) = none →
        (enrichProject designers publishers project).publisherSlug =
          slugify project.publisher))
    ∧ slugify "Ada Lovelace" = "ada-lovelace"
    ∧ (enrichProject [] [] { designer := "Ada Lovelace" }).designerItems =
        [{ name := "Ada Lovelace", slug := "ada-lovelace" }]
    ∧ (enrichProject [{ name := "Ada Lovelace", slug := "ada-l" }] []
        { designer := "Ada Lovelace" }).designerItems =
        [{ name := "Ada Lovelace", slug := "ada-l" }] := by
  refine ⟨fun data => rfl, fun designers publishers project => ?_,
    fun designers publishers project item hmem => ?_,
    fun designers publishers project hp => ?_, by decide, by decide, by decide⟩
  · simp only [enrichProject, List.map_map]
    have hcomp : ((fun item : DesignerItem => item.name) ∘
        mkDesignerItem designers) = id := rfl
    rw [hcomp, List.map_id]
  · simp only [enrichProject, List.mem_map] at hmem
    obtain ⟨name, hname, rfl⟩ := hmem
    refine ⟨fun m hm hslug => ?_, fun hnone => ?_⟩
    · simp only [mkDesignerItem] at hm ⊢
      simp [slugOr, hm, orStr, hslug]
    · simp only [mkDesignerItem] at hnone ⊢
      simp [slugOr, hnone]
  · refine ⟨fun m hm hslug => ?_, fun hnone => ?_⟩
    · simp [enrichProject, hp, hm, slugOr, orStr, hslug]
    · simp [enrichProject, hp, hnone, slugOr]

/-- Witness for C8: the registry slug `ada-l` is used verbatim for a
matched publisher name. -/
theorem enrichProjects_spec_witness :
    (enrichProject [] [{ name := "Ada Lovelace", slug := "ada-l" }]
      { publisher := "Ada Lovelace" }).publisherSlug = "ada-l" :=
  (enrichProjects_spec.2.2.2.1 [] [{ name := "Ada Lovelace", slug := "ada-l" }]
    { publisher := "Ada Lovelace" } (by decide)).1
    { name := "Ada Lovelace", slug := "ada-l" } (by decide) (by decide)

/-- The value held by the watchlist storage key.  `empty` is a missing key
or empty raw string; `invalid` is raw text whose `JSON.parse` throws or
yields a non-array; `list xs` is a JSON array whose elements stringify
(`String(item || '')`) to `xs`. -/
inductive StorageVal where
  | empty
  | invalid
  | list (xs : List String)
deriving DecidableEq, Repr

/-- One step of the deduplication loop in `readWatchlist`: trim the item,
drop it when blank or already seen, else append it. -/
def dedupeStep (acc : List String) (item : String) : List String :=
  let slug := jsTrim item
  if slug = "" ∨ slug ∈ acc then acc else acc ++ [slug]

/-- Function `readWatchlist()`: missing, corrupt or non-array storage reads as the
empty list; an array reads as its trimmed items, blanks dropped and
duplicates removed keeping first occurrences. -/
def readWatchlist : StorageVal → List String
  | .empty => []
  | .invalid => []
  | .list xs => xs.foldl dedupeStep []

/-- Function `writeWatchlist(slugs)`: serialize the list back to storage. -/
def writeWatchlist (slugs : List String) : StorageVal := .list slugs

/-- Function `toggleWatchlist(slug)` as a state transformer: blank slugs are
rejected without touching storage; otherwise the slug is removed (returning
false) when present — `indexOf`/`splice` removes the first occurrence,
modelled by `List.erase` — or appended (returning true) when absent. -/
def toggleWatchlist (slug : String) (st : StorageVal) : Bool × StorageVal :=
  let normalized := jsTrim slug
  if normalized = "" then (false, st)
  else
    let slugs := readWatchlist st
    if normalized ∈ slugs then
      (false, writeWatchlist (slugs.erase normalized))
    else
      (true, writeWatchlist (slugs ++ [normalized]))

/-- The head of a `dropWhile` output never satisfies the predicate. -/
lemma dropWhile_head_false {α : Type} {p : α → Bool} {l : List α} {a : α}
    (h : (l.dropWhile p).head? = some a) : p a = false := by
  simpa [h] using List.head?_dropWhile_not p l

/-- A list whose head fails the predicate is unchanged by `dropWhile`. -/
lemma dropWhile_eq_self_of_head {α : Type} {p : α → Bool} {l : List α}
    (h : ∀ a, l.head? = some a → p a = false) : l.dropWhile p = l := by
  cases l with
  | nil => rfl
  | cons x xs => exact List.dropWhile_cons_of_neg (by simp [h x rfl])

/-- Lemma that `dropWhile` keeps the last element when its output is non-empty. -/
lemma getLast?_dropWhile {α : Type} {p : α → Bool} {l : List α} {a : α}
    (h : (l.dropWhile p).getLast? = some a) : l.getLast? = some a := by
  obtain ⟨t, ht⟩ := List.dropWhile_suffix (l := l) p
  rw [← ht, List.getLast?_append, h]
  rfl

/-- Head of a reversed list is the last element. -/
lemma head?_rev {α : Type} (l : List α) : l.reverse.head? = l.getLast? := by
  have h := List.getLast?_reverse l.reverse
  rw [List.reverse_reverse] at h
  exact h.symm

/-- Trimming character lists is idempotent: a trimmed list has non-white
first and last characters, so trimming it again changes nothing. -/
lemma trimChars_idem (l : List Char) : trimChars (trimChars l) = trimChars l := by
  have h1 : (trimChars l).dropWhile isJsWhite = trimChars l := by
    apply dropWhile_eq_self_of_head
    intro a ha
    unfold trimChars at ha
    rw [head?_rev] at ha
    have h2 := getLast?_dropWhile ha
    rw [List.getLast?_reverse] at h2
    exact dropWhile_head_false h2
  have h3 : ((l.dropWhile isJsWhite).reverse.dropWhile isJsWhite).dropWhile isJsWhite
      = (l.dropWhile isJsWhite).reverse.dropWhile isJsWhite := by
    apply dropWhile_eq_self_of_head
    intro a ha
    exact dropWhile_head_false ha
  have h4 : (trimChars l).reverse =
      (l.dropWhile isJsWhite).reverse.dropWhile isJsWhite := by
    unfold trimChars
    rw [List.reverse_reverse]
  show (((trimChars l).dropWhile isJsWhite).reverse.dropWhile isJsWhite).reverse
      = trimChars l
  rw [h1, h4, h3]
  unfold trimChars
  rfl

/-- Trimming strings is idempotent. -/
lemma jsTrim_idem (s : String) : jsTrim (jsTrim s) = jsTrim s := by
  show String.mk (trimChars (String.mk (trimChars s.data)).data) =
    String.mk (trimChars s.data)
  rw [show (String.mk (trimChars s.data)).data = trimChars s.data from rfl,
    trimChars_idem]

/-- The deduplication fold keeps the accumulator duplicate-free and every
element trimmed and non-blank. -/
lemma foldl_dedupe_invariant (xs : List String) :
    ∀ acc : List String, acc.Nodup → (∀ x ∈ acc, jsTrim x = x ∧ x ≠ "") →
      (xs.foldl dedupeStep acc).Nodup ∧
        ∀ x ∈ xs.foldl dedupeStep acc, jsTrim x = x ∧ x ≠ "" := by
  induction xs with
  | nil => exact fun acc h1 h2 => ⟨h1, h2⟩
  | cons y ys ih =>
    intro acc h1 h2
    simp only [List.foldl_cons]
    apply ih
    · simp only [dedupeStep]
      split_ifs with h
      · exact h1
      · push_neg at h
        simp [List.nodup_append, h1, h.2]
    · intro x hx
      simp only [dedupeStep] at hx
      split_ifs at hx with h
      · exact h2 x hx
      · push_neg at h
        rcases List.mem_append.1 hx with hx | hx
        · exact h2 x hx
        · rw [List.mem_singleton.1 hx]
          exact ⟨jsTrim_idem y, h.1⟩

/-- Any watchlist read back from storage is duplicate-free. -/
lemma readWatchlist_nodup (st : StorageVal) : (readWatchlist st).Nodup := by
  cases st with
  | empty => simp [readWatchlist]
  | invalid => simp [readWatchlist]
  | list xs => exact (foldl_dedupe_invariant xs [] (by simp) (by simp)).1

/-- Every slug read back from storage is trimmed and non-blank. -/
lemma readWatchlist_clean (st : StorageVal) :
    ∀ x ∈ readWatchlist st, jsTrim x = x ∧ x ≠ "" := by
  cases st with
  | empty => simp [readWatchlist]
  | invalid => simp [readWatchlist]
  | list xs => exact (foldl_dedupe_invariant xs [] (by simp) (by simp)).2

/-- The deduplication fold is the identity on an already clean,
duplicate-free list. -/
lemma foldl_dedupe_of_clean (xs : List String) :
    ∀ acc : List String, (acc ++ xs).Nodup →
      (∀ x ∈ xs, jsTrim x = x ∧ x ≠ "") →
      xs.foldl dedupeStep acc = acc ++ xs := by
  induction xs with
  | nil => simp
  | cons y ys ih =>
    intro acc h1 h2
    obtain ⟨hy1, hy2⟩ := h2 y (List.mem_cons_self y ys)
    have hyacc : y ∉ acc := by
      intro hmem
      have := (List.nodup_append.1 h1).2.2
      exact this hmem (List.mem_cons_self y ys)
    have hstep : dedupeStep acc y = acc ++ [y] := by
      simp only [dedupeStep]
      rw [hy1]
      rw [if_neg]
      push_neg
      exact ⟨hy2, hyacc⟩
    simp only [List.foldl_cons, hstep]
    rw [ih (acc ++ [y]) (by simpa using h1)
      (fun x hx => h2 x (List.mem_cons_of_mem y hx))]
    simp

/-- Reading back a stored clean list returns it unchanged. -/
lemma readWatchlist_write (xs : List String) (h1 : xs.Nodup)
    (h2 : ∀ x ∈ xs, jsTrim x = x ∧ x ≠ "") :
    readWatchlist (writeWatchlist xs) = xs := by
  show xs.foldl dedupeStep [] = xs
  simpa using foldl_dedupe_of_clean xs [] (by simpa) h2

/-- C9: toggling a slug whose trimmed form is non-blank and absent returns
the added signal and the read-back list then holds it exactly once;
toggling a present slug returns the removed signal and the read-back list
no longer holds it; the read-back watchlist never holds duplicates; and
toggling the same absent slug twice restores the original read-back
list. -/
theorem toggleWatchlist_spec (slug : String) (st : StorageVal)
    (hne : jsTrim slug ≠ "") :
    (jsTrim slug ∉ readWatchlist st →
      (toggleWatchlist slug st).1 = true
      ∧ (readWatchlist (toggleWatchlist slug st).2).count (jsTrim slug) = 1)
    ∧ (jsTrim slug ∈ readWatchlist st →
      (toggleWatchlist slug st).1 = false
      ∧ jsTrim slug ∉ readWatchlist (toggleWatchlist slug st).2)
    ∧ (∀ st' : StorageVal, (readWatchlist st').Nodup)
    ∧ (jsTrim slug ∉ readWatchlist st →
      readWatchlist (toggleWatchlist slug (toggleWatchlist slug st).2).2 =
        readWatchlist st) := by
  have hclean := readWatchlist_clean st
  have hnodup := readWatchlist_nodup st
  refine ⟨fun habs => ?_, fun hpres => ?_, readWatchlist_nodup, fun habs => ?_⟩
  · have htog : toggleWatchlist slug st =
        (true, writeWatchlist (readWatchlist st ++ [jsTrim slug])) := by
      unfold toggleWatchlist
      rw [if_neg hne, if_neg habs]
    rw [htog]
    have hread : readWatchlist (writeWatchlist (readWatchlist st ++ [jsTrim slug]))
        = readWatchlist st ++ [jsTrim slug] := by
      apply readWatchlist_write
      · simp [List.nodup_append, hnodup, habs]
      · intro x hx
        rcases List.mem_append.1 hx with hx | hx
        · exact hclean x hx
        · rw [List.mem_singleton.1 hx]
          exact ⟨jsTrim_idem slug, hne⟩
    refine ⟨rfl, ?_⟩
    rw [hread, List.count_append]
    rw [List.count_eq_zero_of_not_mem habs]
    simp
  · have htog : toggleWatchlist slug st =
        (false, writeWatchlist ((readWatchlist st).erase (jsTrim slug))) := by
      unfold toggleWatchlist
      rw [if_neg hne, if_pos hpres]
    rw [htog]
    have hread : readWatchlist (writeWatchlist
          ((readWatchlist st).erase (jsTrim slug)))
        = (readWatchlist st).erase (jsTrim slug) := by
      apply readWatchlist_write
      · exact hnodup.erase _
      · exact fun x hx => hclean x (List.mem_of_mem_erase hx)
    refine ⟨rfl, ?_⟩
    rw [hread]
    intro hmem
    exact absurd rfl (hnodup.mem_erase_iff.1 hmem).1
  · have htog : toggleWatchlist slug st =
        (true, writeWatchlist (readWatchlist st ++ [jsTrim slug])) := by
      unfold toggleWatchlist
      rw [if_neg hne, if_neg habs]
    rw [htog]
    have hread : readWatchlist (writeWatchlist (readWatchlist st ++ [jsTrim slug]))
        = readWatchlist st ++ [jsTrim slug] := by
      apply readWatchlist_write
      · simp [List.nodup_append, hnodup, habs]
      · intro x hx
        rcases List.mem_append.1 hx with hx | hx
        · exact hclean x hx
        · rw [List.mem_singleton.1 hx]
          exact ⟨jsTrim_idem slug, hne⟩
    have hmem2 : jsTrim slug ∈ readWatchlist st ++ [jsTrim slug] := by simp
    have htog2 : toggleWatchlist slug
          (writeWatchlist (readWatchlist st ++ [jsTrim slug])) =
        (false, writeWatchlist
          ((readWatchlist st ++ [jsTrim slug]).erase (jsTrim slug))) := by
      unfold toggleWatchlist
      rw [if_neg hne]
      simp only [hread]
      rw [if_pos hmem2]
    simp only [htog2]
    have herase : (readWatchlist st ++ [jsTrim slug]).erase (jsTrim slug)
        = readWatchlist st := by
      rw [List.erase_append_right _ habs]
      simp
    rw [herase]
    exact readWatchlist_write _ hnodup hclean

/-- Witness for C9: toggling `foo` on empty storage signals added, and the
read-back list then holds `foo` exactly once. -/
theorem toggleWatchlist_spec_witness :
    (toggleWatchlist "foo" StorageVal.empty).1 = true ∧
    (readWatchlist (toggleWatchlist "foo" StorageVal.empty).2).count "foo" = 1 := by
  have e : jsTrim "foo" = "foo" := by decide
  have h := (toggleWatchlist_spec "foo" StorageVal.empty (by decide)).1 (by decide)
  rwa [e] at h

/-- C10: the ISO-day check is purely syntactic — any string of four
digits, a hyphen, two digits, a hyphen and two digits passes `hasIsoDate`
even when the digits name no real calendar day (month 13, day 40); such a
project is therefore never classified `preview` for date invalidity, and
the out-of-range components roll over in date construction, so
`"2025-13-40"` parses to the same instant as `"2026-02-09"`. -/
theorem hasIsoDate_syntactic :
    (∀ (c1 c2 c3 c4 c5 c6 c7 c8 : Char) (fb : Option Int),
      isDigitChar c1 = true → isDigitChar c2 = true →
      isDigitChar c3 = true → isDigitChar c4 = true →
      isDigitChar c5 = true → isDigitChar c6 = true →
      isDigitChar c7 = true → isDigitChar c8 = true →
      hasIsoDate (DateField.str
        (String.mk [c1, c2, c3, c4, '-', c5, c6, '-', c7, c8]) fb) = true)
    ∧ hasIsoDate (DateField.str "2025-13-40" none) = true
    ∧ (∀ (p : Project) (now : Int),
      p.isPreview = false →
      (hasIsoDate p.launchDate = true ∨ hasIsoDate p.endDate = true) →
      projectStatus p now ≠ Status.preview)
    ∧ parseDate (DateField.str "2025-13-40" none) =
        parseDate (DateField.str "2026-02-09" none) := by
  refine ⟨fun c1 c2 c3 c4 c5 c6 c7 c8 fb h1 h2 h3 h4 h5 h6 h7 h8 => ?_,
    by decide, fun p now hp hor => ?_, by decide⟩
  · simp [hasIsoDate, isoParts, h1, h2, h3, h4, h5, h6, h7, h8]
  · have hcond : (p.isPreview ||
        (!hasIsoDate p.launchDate && !hasIsoDate p.endDate)) = false := by
      rcases hor with h | h <;> simp [hp, h]
    simp only [projectStatus, hcond]
    simp only [Bool.false_eq_true, if_false]
    split_ifs <;> simp

/-- Witness for C10: a project whose launch date is the pattern-valid but
non-calendar string `2025-13-40` is not classified `preview`. -/
theorem hasIsoDate_syntactic_witness :
    projectStatus { launchDate := DateField.str "2025-13-40" none } 0 ≠
      Status.preview :=
  hasIsoDate_syntactic.2.2.1 { launchDate := DateField.str "2025-13-40" none } 0
    rfl (Or.inl (by decide))

end Launchpad
